import Mathlib

/-!
Shallow embedding of the developer-dashboard backend core: the analytics
aggregation functions (`backend/app/services/analytics.py`), the cache store
(`backend/app/services/cache.py`, `backend/app/models/cache.py`) and the
pagination loops of the upstream client (`backend/app/services/github.py`).

Modelling conventions:

* Calendar dates are day ordinals (`Nat`); the ordinal epoch (day 0) is a
  Monday, so Python's `weekday()` (Monday = 0) is `day % 7`.  Lexicographic
  order on ISO `YYYY-MM-DD` strings coincides with numeric order of day
  ordinals, so sorting by the ordinal models sorting by the date string.
* A parsed `datetime` (`PyDateTime`) keeps the calendar and clock fields it
  was written with, together with the UTC offset (in minutes) carried by the
  ISO string.  `strftime("%Y-%m-%d")` reads the stored calendar fields
  without normalising to UTC; this is `localDateKey`.  Comparison of aware
  datetimes compares UTC instants; this is `utcMinutes`.
* Seconds are elided from `PyDateTime` (minute resolution); nothing in the
  embedded code distinguishes sub-minute instants.
* `datetime.fromisoformat` inside `try/except ValueError` is modelled with
  `Option`: `none` stands for a missing or unparseable timestamp string.
* Python's `list.sort` is a stable sort; `List.mergeSort` (also stable, and
  stable sorts of a list under a fixed total preorder agree) models it.
* Real arithmetic (language percentages) is modelled exactly over `ℚ`, with
  `round(x, 2)` as exact round-half-to-even at two decimal places.
* Wall-clock timestamps for cache expiry (`datetime.utcnow()`) are integer
  seconds (`Int`).
-/

namespace DevDash

/-- Model of a parsed Python `datetime` as produced by
`datetime.fromisoformat(s.replace("Z", "+00:00"))`: the calendar day
(`day`, as an ordinal whose epoch day 0 is a Monday), the wall-clock fields
(`hour`, `minute`) exactly as written in the ISO string, and the UTC offset
in minutes carried by the string (0 for the `Z` / `+00:00` form). -/
structure PyDateTime where
  day : Nat
  hour : Nat
  minute : Nat
  offset : Int
deriving DecidableEq

/-- The calendar date printed by `strftime("%Y-%m-%d")` on a parsed aware
datetime: the stored calendar fields, with no normalisation to UTC. -/
def localDateKey (t : PyDateTime) : Nat := t.day

/-- The UTC instant of an aware datetime, in minutes: aware-datetime
comparison in Python compares these. -/
def utcMinutes (t : PyDateTime) : Int :=
  (t.day : Int) * 1440 + (t.hour : Int) * 60 + (t.minute : Int) - t.offset

/-- The UTC calendar date of the instant denoted by the timestamp (floor of
the UTC instant in days).  `Int` division is floor division for a positive
divisor. -/
def utcDateKey (t : PyDateTime) : Int := utcMinutes t / 1440

/-- Python's `datetime.weekday()`: Monday = 0 .. Sunday = 6.  The ordinal
epoch (day 0) is a Monday by convention of the model. -/
def pyWeekday (t : PyDateTime) : Nat := t.day % 7

/-- Model of one item of the GitHub events feed as consumed by
`get_contribution_timeline` / `get_activity_heatmap`: the parse result of
`event["created_at"]` (`none` for a missing or unparseable string), the
event type string, and `payload.get("action")`. -/
structure GhEvent where
  createdAt : Option PyDateTime
  etype : String
  action : Option String
deriving DecidableEq

/-- One bucket of `daily_data` in `get_contribution_timeline`:
`{"commits": 0, "pull_requests": 0, "issues": 0}`. -/
structure DayAgg where
  commits : Nat
  pull_requests : Nat
  issues : Nat
deriving DecidableEq

def DayAgg.zero : DayAgg := ⟨0, 0, 0⟩

/-- `daily_data[date_key]["commits"] += 1`. -/
def bumpCommits (m : Nat → DayAgg) (d : Nat) : Nat → DayAgg :=
  fun x => if x = d then { m x with commits := (m x).commits + 1 } else m x

/-- `daily_data[date_key]["pull_requests"] += 1`. -/
def bumpPRs (m : Nat → DayAgg) (d : Nat) : Nat → DayAgg :=
  fun x => if x = d then { m x with pull_requests := (m x).pull_requests + 1 } else m x

/-- `daily_data[date_key]["issues"] += 1`. -/
def bumpIssues (m : Nat → DayAgg) (d : Nat) : Nat → DayAgg :=
  fun x => if x = d then { m x with issues := (m x).issues + 1 } else m x

/-- One step of the commit loop of `get_contribution_timeline`: a commit
whose `commit.committer.date` parsed (`some t`) is bucketed at the calendar
date printed by `strftime` on the parsed datetime; missing or unparseable
dates are skipped (`continue`). -/
def commitStep (m : Nat → DayAgg) (c : Option PyDateTime) : Nat → DayAgg :=
  match c with
  | none => m
  | some t => bumpCommits m (localDateKey t)

def commitFold (cs : List (Option PyDateTime)) (m : Nat → DayAgg) : Nat → DayAgg :=
  cs.foldl commitStep m

/-- One step of the events loop of `get_contribution_timeline`: skip events
with missing/unparseable `created_at`, skip events strictly before the
cutoff instant (aware-datetime comparison), then count
`PullRequestEvent`/`IssuesEvent` whose payload action is `"opened"`. -/
def eventStep (cutoff : Int) (m : Nat → DayAgg) (e : GhEvent) : Nat → DayAgg :=
  match e.createdAt with
  | none => m
  | some t =>
    if utcMinutes t < cutoff then m
    else if e.etype = "PullRequestEvent" then
      (if e.action = some "opened" then bumpPRs m (localDateKey t) else m)
    else if e.etype = "IssuesEvent" then
      (if e.action = some "opened" then bumpIssues m (localDateKey t) else m)
    else m

def eventFold (cutoff : Int) (es : List GhEvent) (m : Nat → DayAgg) : Nat → DayAgg :=
  es.foldl (eventStep cutoff) m

/-- Output row of the contribution timeline (`ContributionPoint` schema);
the `date` string is represented by its day ordinal. -/
structure ContributionPoint where
  date : Nat
  commits : Nat
  pull_requests : Nat
  issues : Nat
deriving DecidableEq

/-- The cache-miss computation of `get_contribution_timeline`
(`analytics.py`): bucket commits by the `strftime` date of their committer
timestamp, bucket freshly-cut PR/issue events by the `strftime` date of
`created_at` after the cutoff filter, then emit one row per `i in
range(days)` at date `now - timedelta(days=i)` (zero-filled via
`daily_data.get`) and stable-sort rows by date ascending.
`now` is `datetime.now(timezone.utc)`. -/
def getContributionTimeline (now : PyDateTime) (days : Nat)
    (commits : List (Option PyDateTime)) (events : List GhEvent) :
    List ContributionPoint :=
  let cutoff : Int := utcMinutes now - (days : Int) * 1440
  let daily := eventFold cutoff events (commitFold commits (fun _ => DayAgg.zero))
  let result := (List.range days).map (fun i =>
    let dk := now.day - i
    let d := daily dk
    { date := dk, commits := d.commits, pull_requests := d.pull_requests,
      issues := d.issues })
  result.mergeSort (fun a b => decide (a.date ≤ b.date))

/-- Number of fetched commits whose committer timestamp parsed and whose
`strftime` calendar date is `d`. -/
def commitsOn (cs : List (Option PyDateTime)) (d : Nat) : Nat :=
  (cs.filterMap id).countP (fun t => decide (localDateKey t = d))

/-- Number of events counted as a pull request opened on date `d` by the
events loop. -/
def prOpenedOn (cutoff : Int) (es : List GhEvent) (d : Nat) : Nat :=
  es.countP (fun e =>
    match e.createdAt with
    | none => false
    | some t =>
      !decide (utcMinutes t < cutoff) && decide (e.etype = "PullRequestEvent") &&
        decide (e.action = some "opened") && decide (localDateKey t = d))

/-- Number of events counted as an issue opened on date `d` by the events
loop. -/
def issuesOpenedOn (cutoff : Int) (es : List GhEvent) (d : Nat) : Nat :=
  es.countP (fun e =>
    match e.createdAt with
    | none => false
    | some t =>
      !decide (utcMinutes t < cutoff) && decide (e.etype = "IssuesEvent") &&
        decide (e.action = some "opened") && decide (localDateKey t = d))

/-- Output row of the activity heatmap (`HeatmapPoint` schema). -/
structure HeatmapPoint where
  day : Nat
  hour : Nat
  count : Nat
deriving DecidableEq

/-- `counts[(day, hour)] += 1` on a `defaultdict(int)`. -/
def bumpCell (m : Nat × Nat → Nat) (key : Nat × Nat) : Nat × Nat → Nat :=
  fun x => if x = key then m x + 1 else m x

/-- One step of the counting loop of `get_activity_heatmap`: skip events
with missing/unparseable `created_at`; otherwise increment the cell at
`((weekday + 1) % 7, hour)` where `weekday` is Python's Monday-0 numbering
and `hour` is the wall-clock hour of the parsed datetime. -/
def heatmapStep (m : Nat × Nat → Nat) (e : GhEvent) : Nat × Nat → Nat :=
  match e.createdAt with
  | none => m
  | some t => bumpCell m ((pyWeekday t + 1) % 7, t.hour)

def heatmapCounts (es : List GhEvent) : Nat × Nat → Nat :=
  es.foldl heatmapStep
    (fun _ => 0)

/-- The cache-miss computation of `get_activity_heatmap`: count events per
(day, hour) cell and emit all 7 × 24 cells, day-major and hour-minor,
including zero-count cells. -/
def getActivityHeatmap (es : List GhEvent) : List HeatmapPoint :=
  (List.range 7).flatMap (fun day =>
    (List.range 24).map (fun hour =>
      { day := day, hour := hour, count := heatmapCounts es (day, hour) }))

/-- Model of one repository item of the upstream `/user/repos` listing, as
read by the analytics service (`repo.get(...)` with the defaults the code
supplies).  `owner` is `repo["owner"]["login"]`; `isPrivate` models the
`private` field (a Lean keyword).  `langResult` bundles the upstream
response of `get_repo_languages` for this repository: `none` models the
request failing (the `except Exception` path), `some m` the returned
language → bytes mapping in its iteration order. -/
structure RepoItem where
  name : String
  full_name : String
  description : Option String
  html_url : String
  language : Option String
  stargazers_count : Nat
  forks_count : Nat
  isPrivate : Bool
  fork : Bool
  owner : String
  updated_at : String
  langResult : Option (List (String × Nat))
deriving DecidableEq

/-- Output row of `get_top_repositories` (`Repository` schema: star/fork/
privacy fields renamed for external consumption). -/
structure RepositoryView where
  name : String
  full_name : String
  description : Option String
  html_url : String
  language : Option String
  stars : Nat
  forks : Nat
  is_private : Bool
  updated_at : String
deriving DecidableEq

def toRepositoryView (r : RepoItem) : RepositoryView :=
  { name := r.name, full_name := r.full_name, description := r.description,
    html_url := r.html_url, language := r.language,
    stars := r.stargazers_count, forks := r.forks_count,
    is_private := r.isPrivate, updated_at := r.updated_at }

/-- Comparison used by `repos.sort(key=lambda r: r.get("stargazers_count", 0),
reverse=True)`: `a` may stay before `b` iff `b`'s stars do not exceed
`a`'s. -/
def repoLe (a b : RepoItem) : Bool := decide (b.stargazers_count ≤ a.stargazers_count)

/-- The full star-descending ranking (stable sort). -/
def rankedRepos (repos : List RepoItem) : List RepoItem :=
  repos.mergeSort repoLe

/-- The cache-miss computation of `get_top_repositories`: stable-sort all
repositories by star count descending, truncate to `limit`, convert to the
external `Repository` shape. -/
def getTopRepositories (repos : List RepoItem) (limit : Nat) : List RepositoryView :=
  ((rankedRepos repos).take limit).map toRepositoryView

/-- Output row of `get_language_breakdown` (`LanguageBreakdown` schema). -/
structure LanguageBreakdown where
  language : String
  bytes : Nat
  percentage : ℚ
  color : String
deriving DecidableEq

/-- The static `LANGUAGE_COLORS` table with its `DEFAULT_LANGUAGE_COLOR`
fallback (`LANGUAGE_COLORS.get(lang, DEFAULT_LANGUAGE_COLOR)`). -/
def languageColor (lang : String) : String :=
  if lang = "Python" then "#3572A5"
  else if lang = "JavaScript" then "#f1e05a"
  else if lang = "TypeScript" then "#3178c6"
  else if lang = "Java" then "#b07219"
  else if lang = "Go" then "#00ADD8"
  else if lang = "Rust" then "#dea584"
  else if lang = "Ruby" then "#701516"
  else if lang = "PHP" then "#4F5D95"
  else if lang = "C#" then "#178600"
  else if lang = "C++" then "#f34b7d"
  else if lang = "C" then "#555555"
  else if lang = "HTML" then "#e34c26"
  else if lang = "CSS" then "#563d7c"
  else if lang = "Shell" then "#89e051"
  else if lang = "Swift" then "#F05138"
  else if lang = "Kotlin" then "#A97BFF"
  else if lang = "Scala" then "#c22d40"
  else if lang = "Vue" then "#41b883"
  else if lang = "Dart" then "#00B4AB"
  else if lang = "Jupyter Notebook" then "#DA5B0B"
  else "#8b8b8b"

/-- `language_bytes[lang] += bytes_count` on a Python dict: update the
existing entry in place (keeping its position in insertion order), or append
a new entry at the end. -/
def addLangBytes : List (String × Nat) → String → Nat → List (String × Nat)
  | [], lang, b => [(lang, b)]
  | (l0, b0) :: rest, lang, b =>
    if l0 = lang then (l0, b0 + b) :: rest
    else (l0, b0) :: addLangBytes rest lang b

/-- The per-repository accumulation step of `get_language_breakdown`: skip
forks, skip repositories with an empty owner login or name, skip
repositories whose language lookup failed, and otherwise add every
language's byte count into the running dict. -/
def accumulateRepo (m : List (String × Nat)) (r : RepoItem) : List (String × Nat) :=
  if r.fork then m
  else if r.owner = "" ∨ r.name = "" then m
  else
    match r.langResult with
    | none => m
    | some ls => ls.foldl (fun m p => addLangBytes m p.1 p.2) m

/-- The fully accumulated `language_bytes` dict, in insertion order. -/
def languageBytesOf (repos : List RepoItem) : List (String × Nat) :=
  repos.foldl accumulateRepo []

/-- Exact round-half-to-even to an integer, the rounding rule of Python's
`round` (real arithmetic is modelled exactly over `ℚ`). -/
def roundHalfEven (x : ℚ) : ℤ :=
  let f := x.floor
  if x - f < 1 / 2 then f
  else if x - f > 1 / 2 then f + 1
  else if f % 2 = 0 then f else f + 1

/-- `round(x, 2)`: round-half-to-even at two decimal places. -/
def roundTo2 (x : ℚ) : ℚ := (roundHalfEven (x * 100) : ℚ) / 100

/-- One output row of `get_language_breakdown` for language entry `p` of
the accumulated dict, given the grand byte total. -/
def breakdownRow (total : Nat) (p : String × Nat) : LanguageBreakdown :=
  { language := p.1, bytes := p.2,
    percentage := roundTo2 ((p.2 : ℚ) / (total : ℚ) * 100),
    color := languageColor p.1 }

/-- The nonzero-total tail of `get_language_breakdown`: one row per language
in dict order with its rounded percentage of `total` and chart color, then
stable-sort by percentage descending and keep the top 10. -/
def breakdownRows (m : List (String × Nat)) (total : Nat) : List LanguageBreakdown :=
  ((m.map (breakdownRow total)).mergeSort
    (fun a b => decide (b.percentage ≤ a.percentage))).take 10

/-- The cache-miss computation of `get_language_breakdown`: accumulate
non-fork language bytes; if the grand total is zero return the empty list
(this early return precedes the cache write in the source), else build the
rounded, sorted, truncated rows. -/
def computeLanguageBreakdown (repos : List RepoItem) : List LanguageBreakdown :=
  let m := languageBytesOf repos
  let total := (m.map (fun p => p.2)).sum
  if total = 0 then []
  else breakdownRows m total

/-- Model of one `CachedData` row (`models/cache.py`), generic in the
payload type of the JSON `data` column.  Timestamps are `datetime.utcnow()`
readings in integer seconds. -/
structure CacheRecord (α : Type) where
  user_id : Nat
  cache_key : String
  data : α
  expires_at : Int
  created_at : Int
  updated_at : Int
deriving DecidableEq

/-- The `cached_data` table, as the list of its rows in insertion order. -/
abbrev CacheStore (α : Type) := List (CacheRecord α)

/-- The `WHERE user_id == .. AND cache_key == ..` filter. -/
def recordMatches (u : Nat) (k : String) (r : CacheRecord α) : Bool :=
  decide (r.user_id = u) && decide (r.cache_key = k)

/-- `select(CachedData).where(...)` followed by `scalar_one_or_none()`. -/
def findRecord (u : Nat) (k : String) (s : CacheStore α) : Option (CacheRecord α) :=
  s.find? (recordMatches u k)

/-- `CachedData.is_expired`: `datetime.utcnow() > self.expires_at`. -/
def isExpired (now : Int) (r : CacheRecord α) : Bool :=
  decide (r.expires_at < now)

/-- `delete_cached`: delete the matching rows and report whether any row
was deleted (`rowcount > 0`). -/
def deleteCached (u : Nat) (k : String) (s : CacheStore α) : CacheStore α × Bool :=
  let s2 := s.filter (fun r => !recordMatches u k r)
  (s2, decide (s2.length < s.length))

/-- `get_cached`: return the payload of the matching row if it exists and is
not expired; an expired row is deleted as a side effect of the read and
treated as absent. -/
def getCached (now : Int) (u : Nat) (k : String) (s : CacheStore α) :
    Option α × CacheStore α :=
  match findRecord u k s with
  | none => (none, s)
  | some r => if isExpired now r then (none, (deleteCached u k s).1) else (some r.data, s)

/-- Update the existing row found by the select in `set_cached`: replace its
payload, expiry and `updated_at` in place. -/
def updateFirstRecord (u : Nat) (k : String) (d : α) (expires now : Int) :
    CacheStore α → CacheStore α
  | [] => []
  | r :: rest =>
    if recordMatches u k r then
      { r with data := d, expires_at := expires, updated_at := now } :: rest
    else r :: updateFirstRecord u k d expires now rest

/-- `settings.cache_ttl_seconds` (default 24 h). -/
def defaultTtlSeconds : Nat := 86400

/-- `set_cached` with an explicit TTL: manual upsert — select, then update
the existing row in place, or insert a new row. -/
def setCached (now : Int) (u : Nat) (k : String) (d : α) (ttl : Nat)
    (s : CacheStore α) : CacheStore α :=
  let expires := now + (ttl : Int)
  if (findRecord u k s).isSome then updateFirstRecord u k d expires now s
  else s ++ [{ user_id := u, cache_key := k, data := d, expires_at := expires,
               created_at := now, updated_at := now }]

/-- `delete_all_user_cache`: delete every row of one user, reporting the
count removed. -/
def deleteAllUserCache (u : Nat) (s : CacheStore α) : CacheStore α × Nat :=
  let s2 := s.filter (fun r => !decide (r.user_id = u))
  (s2, s.length - s2.length)

/-- `delete_expired_cache`: delete every row whose expiry is strictly in
the past, reporting the count removed. -/
def deleteExpiredCache (now : Int) (s : CacheStore α) : CacheStore α × Nat :=
  let s2 := s.filter (fun r => !decide (r.expires_at < now))
  (s2, s.length - s2.length)

/-- The `(user_id, cache_key)` pair of a row. -/
def keyOf (r : CacheRecord α) : Nat × String := (r.user_id, r.cache_key)

/-- Uniqueness invariant of the `cached_data` table (constraint
`uq_user_cache_key`): no two rows share a `(user_id, cache_key)` pair. -/
def UniqueKeys (s : CacheStore α) : Prop :=
  s.Pairwise (fun a b => keyOf a ≠ keyOf b)

/-- Number of rows matching a `(user_id, cache_key)` pair. -/
def countMatching (u : Nat) (k : String) (s : CacheStore α) : Nat :=
  s.countP (recordMatches u k)

/-- `UserStats` schema. -/
structure UserStats where
  total_stars : Nat
  total_forks : Nat
  public_repos : Nat
  private_repos : Nat
  total_commits : Nat
deriving DecidableEq

/-- The cache-miss computation of `get_user_stats`: aggregate over the full
repository list, with the commit total taken from the search API's reported
`total_count`. -/
def computeUserStats (repos : List RepoItem) (totalCommits : Nat) : UserStats :=
  { total_stars := (repos.map (fun r => r.stargazers_count)).sum,
    total_forks := (repos.map (fun r => r.forks_count)).sum,
    public_repos := repos.countP (fun r => !r.isPrivate),
    private_repos := repos.countP (fun r => r.isPrivate),
    total_commits := totalCommits }

/-- Cache-or-fetch wrapper of `get_user_stats`: on a hit return the cached
payload, on a miss compute, write through with the default TTL, return.
`now` is the wall clock shared by the cache reads and writes. -/
def userStatsView (now : Int) (u : Nat) (s : CacheStore UserStats)
    (repos : List RepoItem) (totalCommits : Nat) : UserStats × CacheStore UserStats :=
  match getCached now u "user_stats" s with
  | (some v, s1) => (v, s1)
  | (none, s1) =>
    let stats := computeUserStats repos totalCommits
    (stats, setCached now u "user_stats" stats defaultTtlSeconds s1)

/-- Cache-or-fetch wrapper of `get_contribution_timeline`; the cache key
embeds the `days` parameter (`f"contributions_{days}"`). -/
def contributionTimelineView (now : Int) (u : Nat)
    (s : CacheStore (List ContributionPoint)) (nowTs : PyDateTime) (days : Nat)
    (cs : List (Option PyDateTime)) (es : List GhEvent) :
    List ContributionPoint × CacheStore (List ContributionPoint) :=
  match getCached now u ("contributions_" ++ toString days) s with
  | (some v, s1) => (v, s1)
  | (none, s1) =>
    let r := getContributionTimeline nowTs days cs es
    (r, setCached now u ("contributions_" ++ toString days) r defaultTtlSeconds s1)

/-- Cache-or-fetch wrapper of `get_language_breakdown`.  The zero-total
early return (`if total_bytes == 0: return []`) happens before the cache
write in the source, so that path returns without writing. -/
def languageBreakdownView (now : Int) (u : Nat)
    (s : CacheStore (List LanguageBreakdown)) (repos : List RepoItem) :
    List LanguageBreakdown × CacheStore (List LanguageBreakdown) :=
  match getCached now u "languages" s with
  | (some v, s1) => (v, s1)
  | (none, s1) =>
    let m := languageBytesOf repos
    let total := (m.map (fun p => p.2)).sum
    if total = 0 then ([], s1)
    else
      let r := breakdownRows m total
      (r, setCached now u "languages" r defaultTtlSeconds s1)

/-- Cache-or-fetch wrapper of `get_top_repositories`; the cache key embeds
the `limit` parameter (`f"repositories_{limit}"`). -/
def topRepositoriesView (now : Int) (u : Nat) (s : CacheStore (List RepositoryView))
    (repos : List RepoItem) (limit : Nat) :
    List RepositoryView × CacheStore (List RepositoryView) :=
  match getCached now u ("repositories_" ++ toString limit) s with
  | (some v, s1) => (v, s1)
  | (none, s1) =>
    let r := getTopRepositories repos limit
    (r, setCached now u ("repositories_" ++ toString limit) r defaultTtlSeconds s1)

/-- Cache-or-fetch wrapper of `get_activity_heatmap`. -/
def activityHeatmapView (now : Int) (u : Nat) (s : CacheStore (List HeatmapPoint))
    (es : List GhEvent) : List HeatmapPoint × CacheStore (List HeatmapPoint) :=
  match getCached now u "heatmap" s with
  | (some v, s1) => (v, s1)
  | (none, s1) =>
    let r := getActivityHeatmap es
    (r, setCached now u "heatmap" r defaultTtlSeconds s1)

/-- Model of one paginated fetch loop of the upstream client
(`get_all_repos` / `get_all_events` / `get_all_user_commits`): `fetch page`
returns the page's items and whether a `"next"` link is present.  The loop
runs `while page <= maxPages`, extends the accumulator, and breaks when the
`"next"` link is absent or the page is empty.  Returns the concatenated
items and the number of upstream requests issued. -/
def paginate (maxPages : Nat) (fetch : Nat → List I × Bool) : List I × Nat :=
  go 1
where
  go (page : Nat) : List I × Nat :=
    if h : page ≤ maxPages then
      if !(fetch page).2 || (fetch page).1.isEmpty then ((fetch page).1, 1)
      else ((fetch page).1 ++ (go (page + 1)).1, (go (page + 1)).2 + 1)
    else ([], 0)
  termination_by maxPages + 1 - page

/-- `get_all_repos`: hard page ceiling 50. -/
def getAllRepos (fetch : Nat → List I × Bool) : List I × Nat := paginate 50 fetch

/-- `get_all_events`: hard page ceiling 3 (the upstream 300-event cap). -/
def getAllEvents (fetch : Nat → List I × Bool) : List I × Nat := paginate 3 fetch

/-- `get_all_user_commits`: hard page ceiling 10 (the upstream 1000-result
search window). -/
def getAllUserCommits (fetch : Nat → List I × Bool) : List I × Nat := paginate 10 fetch

lemma paginate_go_count_le (m : Nat) (fetch : Nat → List I × Bool) (page : Nat) :
    (paginate.go m fetch page).2 ≤ m + 1 - page := by
  rw [paginate.go]
  split
  · split
    · simp only []
      omega
    · have ih := paginate_go_count_le m fetch (page + 1)
      simp only []
      omega
  · simp
termination_by m + 1 - page

lemma paginate_go_count_allnext (m : Nat) (x : I) (page : Nat) (h : page ≤ m) :
    (paginate.go m (fun _ => ([x], true)) page).2 = m + 1 - page := by
  rw [paginate.go, dif_pos h, if_neg (by simp)]
  show (paginate.go m (fun _ => ([x], true)) (page + 1)).2 + 1 = m + 1 - page
  by_cases h2 : page + 1 ≤ m
  · have ih := paginate_go_count_allnext m x (page + 1) h2
    omega
  · rw [paginate.go, dif_neg (by omega)]
    show 0 + 1 = m + 1 - page
    omega
termination_by m + 1 - page

/-- C9: every pagination loop in the upstream client issues at most its
hard page ceiling of requests — 50 for `get_all_repos`, 3 for
`get_all_events`, 10 for `get_all_user_commits` — for every possible
sequence of upstream responses; a response whose `"next"` link never
disappears (and whose pages are never empty) makes the loop stop exactly at
the ceiling. -/
theorem pagination_request_bound (I : Type) :
    (∀ fetch : Nat → List I × Bool,
        (getAllRepos fetch).2 ≤ 50 ∧ (getAllEvents fetch).2 ≤ 3 ∧
          (getAllUserCommits fetch).2 ≤ 10)
    ∧ (getAllRepos (fun _ => ([0], true))).2 = 50
    ∧ (getAllEvents (fun _ => ([0], true))).2 = 3
    ∧ (getAllUserCommits (fun _ => ([0], true))).2 = 10 := by
  refine ⟨fun fetch => ⟨?_, ?_, ?_⟩, ?_, ?_, ?_⟩
  · simpa using paginate_go_count_le 50 fetch 1
  · simpa using paginate_go_count_le 3 fetch 1
  · simpa using paginate_go_count_le 10 fetch 1
  · simpa using paginate_go_count_allnext 50 (0 : Nat) 1 (by omega)
  · simpa using paginate_go_count_allnext 3 (0 : Nat) 1 (by omega)
  · simpa using paginate_go_count_allnext 10 (0 : Nat) 1 (by omega)

lemma recordMatches_iff (u : Nat) (k : String) (r : CacheRecord α) :
    recordMatches u k r = true ↔ keyOf r = (u, k) := by
  simp [recordMatches, keyOf, Prod.ext_iff]

lemma updateFirstRecord_map_keyOf (u : Nat) (k : String) (d : α) (e n : Int)
    (s : CacheStore α) :
    (updateFirstRecord u k d e n s).map keyOf = s.map keyOf := by
  induction s with
  | nil => rfl
  | cons r rest ih =>
    unfold updateFirstRecord
    by_cases h : recordMatches u k r
    · simp [h, keyOf]
    · simp [h, ih]

lemma updateFirstRecord_length (u : Nat) (k : String) (d : α) (e n : Int)
    (s : CacheStore α) :
    (updateFirstRecord u k d e n s).length = s.length := by
  induction s with
  | nil => rfl
  | cons r rest ih =>
    unfold updateFirstRecord
    by_cases h : recordMatches u k r <;> simp [h, ih]

lemma findRecord_updateFirstRecord (u : Nat) (k : String) (d : α) (e n : Int)
    (s : CacheStore α) :
    findRecord u k (updateFirstRecord u k d e n s) =
      (findRecord u k s).map
        (fun r => { r with data := d, expires_at := e, updated_at := n }) := by
  induction s with
  | nil => rfl
  | cons r rest ih =>
    unfold updateFirstRecord
    by_cases h : recordMatches u k r
    · have h2 : recordMatches u k
          ({ r with data := d, expires_at := e, updated_at := n } : CacheRecord α) = true := h
      simp [findRecord, List.find?_cons_of_pos, h, h2]
    · simp only [if_neg h, findRecord, List.find?_cons_of_neg _ h]
      exact ih

lemma findRecord_setCached (t1 : Int) (u : Nat) (k : String) (p : α) (ttl : Nat)
    (s : CacheStore α) :
    ∃ r, findRecord u k (setCached t1 u k p ttl s) = some r ∧
      r.data = p ∧ r.expires_at = t1 + (ttl : Int) := by
  by_cases h : (findRecord u k s).isSome
  · obtain ⟨r0, hr0⟩ := Option.isSome_iff_exists.mp h
    refine ⟨{ r0 with data := p, expires_at := t1 + (ttl : Int), updated_at := t1 },
      ?_, rfl, rfl⟩
    simp only [setCached, if_pos h]
    rw [findRecord_updateFirstRecord, hr0]
    rfl
  · have hf : findRecord u k s = none := Option.not_isSome_iff_eq_none.mp h
    refine ⟨⟨u, k, p, t1 + (ttl : Int), t1, t1⟩, ?_, rfl, rfl⟩
    simp only [setCached, if_neg h]
    unfold findRecord at hf ⊢
    rw [List.find?_append, hf, Option.none_or]
    simp [recordMatches]

/-- C2: a `set_cached` immediately followed by `get_cached` on the same
`(user, key)` returns the payload just written (for any elapsed time within
the TTL, in particular for the default 24-hour TTL), and a `set_cached` with
`ttl_seconds = 0` makes any strictly later `get_cached` return absent: the
record is born already expired, since `is_expired` is a strict comparison
of `utcnow()` against `expires_at`. -/
theorem cache_set_get_roundtrip {α : Type} (s : CacheStore α) (u : Nat) (k : String)
    (p : α) (ttl : Nat) (t1 t2 : Int) :
    (t2 ≤ t1 + (ttl : Int) →
        (getCached t2 u k (setCached t1 u k p ttl s)).1 = some p)
    ∧ (t1 < t2 → (getCached t2 u k (setCached t1 u k p 0 s)).1 = none) := by
  constructor
  · intro h
    obtain ⟨r, hr, hd, he⟩ := findRecord_setCached t1 u k p ttl s
    have hx : isExpired t2 r = false := by
      simp only [isExpired, he, decide_eq_false_iff_not]
      omega
    simp [getCached, hr, hx, hd]
  · intro h
    obtain ⟨r, hr, hd, he⟩ := findRecord_setCached t1 u k p 0 s
    have hx : isExpired t2 r = true := by
      simp only [isExpired, he, decide_eq_true_eq]
      omega
    simp [getCached, hr, hx]

/-- C2 witness: concrete round trip at `u = 1`, `k = "user_stats"`,
`p = 7`, with one second elapsing between the write and the read. -/
theorem cache_set_get_roundtrip_witness :
    (getCached 1 1 "user_stats" (setCached 0 1 "user_stats" (7 : Nat) 86400 [])).1 = some 7
    ∧ (getCached 1 1 "user_stats" (setCached 0 1 "user_stats" (7 : Nat) 0 [])).1 = none :=
  ⟨(cache_set_get_roundtrip [] 1 "user_stats" 7 86400 0 1).1 (by decide),
   (cache_set_get_roundtrip [] 1 "user_stats" 7 0 0 1).2 (by decide)⟩

lemma uniqueKeys_map_iff (s : CacheStore α) :
    UniqueKeys s ↔ (s.map keyOf).Pairwise (· ≠ ·) := by
  rw [UniqueKeys, List.pairwise_map]

lemma countMatching_updateFirstRecord (u : Nat) (k : String) (d : α) (e n : Int)
    (s : CacheStore α) :
    countMatching u k (updateFirstRecord u k d e n s) = countMatching u k s := by
  induction s with
  | nil => rfl
  | cons r rest ih =>
    unfold updateFirstRecord
    by_cases h : recordMatches u k r
    · have h2 : recordMatches u k
          ({ r with data := d, expires_at := e, updated_at := n } : CacheRecord α) = true := h
      simp [countMatching, List.countP_cons, h, h2]
    · have h2 := ih
      simp only [countMatching] at h2 ⊢
      rw [if_neg h, List.countP_cons, List.countP_cons, h2]

lemma countMatching_eq_one_of_find_some {u : Nat} {k : String} {s : CacheStore α}
    {r : CacheRecord α} (hf : findRecord u k s = some r) (h : UniqueKeys s) :
    countMatching u k s = 1 := by
  induction s with
  | nil => simp [findRecord] at hf
  | cons a rest ih =>
    by_cases ha : recordMatches u k a
    · have hrest : countMatching u k rest = 0 := by
        rw [countMatching, List.countP_eq_zero]
        intro b hb
        have hne := (List.pairwise_cons.mp h).1 b hb
        rw [recordMatches_iff]
        rw [recordMatches_iff] at ha
        rw [ha] at hne
        exact fun hc => hne hc.symm
      simp [countMatching, List.countP_cons, ha] at hrest ⊢
      simpa [countMatching] using hrest
    · have hf2 : findRecord u k rest = some r := by
        unfold findRecord at hf ⊢
        rwa [List.find?_cons_of_neg _ ha] at hf
      have := ih hf2 (List.pairwise_cons.mp h).2
      simp only [countMatching, List.countP_cons, ha]
      simpa [countMatching] using this

/-- C8: every cache-store operation preserves the at-most-one-record-per-
`(user_id, cache_key)` invariant; `set_cached` leaves exactly one matching
record, updating in place (same row count) when a record exists and
inserting (row count + 1) only when none exists. -/
theorem cache_unique_key_invariant {α : Type} (now : Int) (u : Nat) (k : String)
    (d : α) (ttl : Nat) (s : CacheStore α) (h : UniqueKeys s) :
    UniqueKeys (getCached now u k s).2
    ∧ UniqueKeys (setCached now u k d ttl s)
    ∧ UniqueKeys (deleteCached u k s).1
    ∧ UniqueKeys (deleteAllUserCache u s).1
    ∧ UniqueKeys (deleteExpiredCache now s).1
    ∧ countMatching u k (setCached now u k d ttl s) = 1
    ∧ ((findRecord u k s).isSome → (setCached now u k d ttl s).length = s.length)
    ∧ (findRecord u k s = none → (setCached now u k d ttl s).length = s.length + 1) := by
  have hfilter : ∀ p : CacheRecord α → Bool, UniqueKeys (s.filter p) :=
    fun p => List.Pairwise.sublist (List.filter_sublist s) h
  have hset : UniqueKeys (setCached now u k d ttl s)
      ∧ countMatching u k (setCached now u k d ttl s) = 1 := by
    unfold setCached
    by_cases hf : (findRecord u k s).isSome
    · rw [if_pos hf]
      obtain ⟨r0, hr0⟩ := Option.isSome_iff_exists.mp hf
      constructor
      · rw [uniqueKeys_map_iff, updateFirstRecord_map_keyOf, ← uniqueKeys_map_iff]
        exact h
      · rw [countMatching_updateFirstRecord]
        exact countMatching_eq_one_of_find_some hr0 h
    · rw [if_neg hf]
      have hnone : findRecord u k s = none := Option.not_isSome_iff_eq_none.mp hf
      have hall : ∀ a ∈ s, recordMatches u k a = false := by
        intro a ha
        have := List.find?_eq_none.mp hnone a ha
        simpa using this
      constructor
      · rw [UniqueKeys, List.pairwise_append]
        refine ⟨h, by simp, ?_⟩
        intro a ha b hb
        simp only [List.mem_singleton] at hb
        subst hb
        intro hc
        have : recordMatches u k a = true := by
          rw [recordMatches_iff, hc]
          simp [keyOf]
        rw [hall a ha] at this
        exact Bool.false_ne_true this
      · rw [countMatching, List.countP_append]
        have h0 : List.countP (recordMatches u k) s = 0 :=
          List.countP_eq_zero.mpr (by intro a ha; simp [hall a ha])
        simp [h0, recordMatches]
  refine ⟨?_, hset.1, hfilter _, hfilter _, hfilter _, hset.2, ?_, ?_⟩
  · unfold getCached
    cases hf : findRecord u k s with
    | none => exact h
    | some r =>
      by_cases hx : isExpired now r
      · simp only [hx, if_true]
        exact hfilter _
      · simp only [hx, if_false]
        exact h
  · intro hf
    unfold setCached
    rw [if_pos hf, updateFirstRecord_length]
  · intro hf
    unfold setCached
    rw [if_neg (by simp [hf])]
    simp

/-- C8 witness: the invariant is preserved, and `set_cached` inserts
exactly one record, on a concrete one-row store. -/
theorem cache_unique_key_invariant_witness :
    UniqueKeys (setCached 3 1 "user_stats" (7 : Nat) 10 [⟨2, "heatmap", 5, 9, 0, 0⟩])
    ∧ countMatching 1 "user_stats"
        (setCached 3 1 "user_stats" (7 : Nat) 10 [⟨2, "heatmap", 5, 9, 0, 0⟩]) = 1
    ∧ (setCached 3 1 "user_stats" (7 : Nat) 10 [⟨2, "heatmap", 5, 9, 0, 0⟩]).length
        = [(⟨2, "heatmap", 5, 9, 0, 0⟩ : CacheRecord Nat)].length + 1 :=
  ⟨(cache_unique_key_invariant 3 1 "user_stats" 7 10 _ (by simp [UniqueKeys])).2.1,
   (cache_unique_key_invariant 3 1 "user_stats" 7 10 _ (by simp [UniqueKeys])).2.2.2.2.2.1,
   (cache_unique_key_invariant 3 1 "user_stats" 7 10 _
      (by simp [UniqueKeys])).2.2.2.2.2.2.2 (by decide)⟩

lemma bumpCommits_apply (m : Nat → DayAgg) (k d : Nat) :
    bumpCommits m k d =
      ⟨(m d).commits + (if k = d then 1 else 0), (m d).pull_requests, (m d).issues⟩ := by
  by_cases h : d = k
  · subst h
    simp [bumpCommits]
  · have h2 : ¬(k = d) := fun hc => h hc.symm
    simp [bumpCommits, h, h2]

lemma bumpPRs_apply (m : Nat → DayAgg) (k d : Nat) :
    bumpPRs m k d =
      ⟨(m d).commits, (m d).pull_requests + (if k = d then 1 else 0), (m d).issues⟩ := by
  by_cases h : d = k
  · subst h
    simp [bumpPRs]
  · have h2 : ¬(k = d) := fun hc => h hc.symm
    simp [bumpPRs, h, h2]

lemma bumpIssues_apply (m : Nat → DayAgg) (k d : Nat) :
    bumpIssues m k d =
      ⟨(m d).commits, (m d).pull_requests, (m d).issues + (if k = d then 1 else 0)⟩ := by
  by_cases h : d = k
  · subst h
    simp [bumpIssues]
  · have h2 : ¬(k = d) := fun hc => h hc.symm
    simp [bumpIssues, h, h2]

lemma commitFold_apply (cs : List (Option PyDateTime)) :
    ∀ (m : Nat → DayAgg) (d : Nat),
      commitFold cs m d =
        ⟨(m d).commits + commitsOn cs d, (m d).pull_requests, (m d).issues⟩ := by
  induction cs with
  | nil => intro m d; simp [commitFold, commitsOn]
  | cons c rest ih =>
    intro m d
    cases c with
    | none =>
      rw [show commitFold (none :: rest) m = commitFold rest m from rfl, ih]
      simp [commitsOn]
    | some t =>
      rw [show commitFold (some t :: rest) m
            = commitFold rest (bumpCommits m (localDateKey t)) from rfl, ih]
      have hcs : commitsOn (some t :: rest) d
          = (if localDateKey t = d then 1 else 0) + commitsOn rest d := by
        rw [commitsOn, commitsOn,
          show (some t :: rest).filterMap id = t :: rest.filterMap id from rfl,
          List.countP_cons]
        by_cases hk : localDateKey t = d <;> simp [hk] <;> omega
      rw [hcs, bumpCommits_apply]
      by_cases hk : localDateKey t = d <;> simp [hk] <;> omega

lemma eventFold_apply (cutoff : Int) (es : List GhEvent) :
    ∀ (m : Nat → DayAgg) (d : Nat),
      eventFold cutoff es m d =
        ⟨(m d).commits, (m d).pull_requests + prOpenedOn cutoff es d,
          (m d).issues + issuesOpenedOn cutoff es d⟩ := by
  induction es with
  | nil => intro m d; simp [eventFold, prOpenedOn, issuesOpenedOn]
  | cons e rest ih =>
    intro m d
    rw [show eventFold cutoff (e :: rest) m
          = eventFold cutoff rest (eventStep cutoff m e) from rfl, ih]
    have hpr : prOpenedOn cutoff (e :: rest) d =
        prOpenedOn cutoff rest d + (if
          (match e.createdAt with
            | none => false
            | some t => !decide (utcMinutes t < cutoff)
                && decide (e.etype = "PullRequestEvent")
                && decide (e.action = some "opened")
                && decide (localDateKey t = d)) = true then 1 else 0) := by
      rw [prOpenedOn, List.countP_cons]; rfl
    have his : issuesOpenedOn cutoff (e :: rest) d =
        issuesOpenedOn cutoff rest d + (if
          (match e.createdAt with
            | none => false
            | some t => !decide (utcMinutes t < cutoff)
                && decide (e.etype = "IssuesEvent")
                && decide (e.action = some "opened")
                && decide (localDateKey t = d)) = true then 1 else 0) := by
      rw [issuesOpenedOn, List.countP_cons]; rfl
    rw [hpr, his]
    cases hct : e.createdAt with
    | none => simp [eventStep, hct]
    | some t =>
      by_cases hcut : utcMinutes t < cutoff
      · simp [eventStep, hct, hcut]
      · by_cases hty : e.etype = "PullRequestEvent"
        · by_cases hac : e.action = some "opened"
          · rw [show eventStep cutoff m e = bumpPRs m (localDateKey t) by
              simp [eventStep, hct, hcut, hty, hac]]
            rw [bumpPRs_apply]
            by_cases hk : localDateKey t = d <;> simp [hk, hcut, hty, hac] <;> omega
          · simp [eventStep, hct, hcut, hty, hac]
        · by_cases hty2 : e.etype = "IssuesEvent"
          · by_cases hac : e.action = some "opened"
            · rw [show eventStep cutoff m e = bumpIssues m (localDateKey t) by
                simp [eventStep, hct, hcut, hty, hty2, hac]]
              rw [bumpIssues_apply]
              by_cases hk : localDateKey t = d <;>
                simp [hk, hcut, hty, hty2, hac] <;> omega
            · simp [eventStep, hct, hcut, hty, hty2, hac]
          · simp [eventStep, hct, hcut, hty, hty2]

lemma commitFold_filter (cs : List (Option PyDateTime)) :
    ∀ m : Nat → DayAgg, commitFold (cs.filter Option.isSome) m = commitFold cs m := by
  induction cs with
  | nil => intro m; rfl
  | cons c rest ih =>
    intro m
    cases c with
    | none => rw [show (none :: rest).filter Option.isSome = rest.filter Option.isSome by
        simp [List.filter]]; exact ih m
    | some t =>
      rw [show (some t :: rest).filter Option.isSome
            = some t :: rest.filter Option.isSome by simp [List.filter]]
      exact ih (commitStep m (some t))

lemma eventFold_filter (cutoff : Int) (es : List GhEvent) :
    ∀ m : Nat → DayAgg,
      eventFold cutoff (es.filter (fun e => e.createdAt.isSome)) m
        = eventFold cutoff es m := by
  induction es with
  | nil => intro m; rfl
  | cons e rest ih =>
    intro m
    cases hct : e.createdAt with
    | none =>
      rw [show (e :: rest).filter (fun e => e.createdAt.isSome)
            = rest.filter (fun e => e.createdAt.isSome) by simp [List.filter, hct]]
      rw [ih m]
      rw [show eventFold cutoff (e :: rest) m
            = eventFold cutoff rest (eventStep cutoff m e) from rfl]
      rw [show eventStep cutoff m e = m by simp [eventStep, hct]]
    | some t =>
      rw [show (e :: rest).filter (fun e => e.createdAt.isSome)
            = e :: rest.filter (fun e => e.createdAt.isSome) by simp [List.filter, hct]]
      exact ih (eventStep cutoff m e)

lemma heatmapFold_filter (es : List GhEvent) :
    ∀ m : Nat × Nat → Nat,
      (es.filter (fun e => e.createdAt.isSome)).foldl heatmapStep m
        = es.foldl heatmapStep m := by
  induction es with
  | nil => intro m; rfl
  | cons e rest ih =>
    intro m
    cases hct : e.createdAt with
    | none =>
      rw [show (e :: rest).filter (fun e => e.createdAt.isSome)
            = rest.filter (fun e => e.createdAt.isSome) by simp [List.filter, hct]]
      rw [ih m, List.foldl_cons,
        show heatmapStep m e = m by simp [heatmapStep, hct]]
    | some t =>
      rw [show (e :: rest).filter (fun e => e.createdAt.isSome)
            = e :: rest.filter (fun e => e.createdAt.isSome) by simp [List.filter, hct]]
      rw [List.foldl_cons, List.foldl_cons]
      exact ih (heatmapStep m e)

lemma heatmap_eq_map_range (es : List GhEvent) :
    getActivityHeatmap es = (List.range 168).map (fun i =>
      { day := i / 24, hour := i % 24, count := heatmapCounts es (i / 24, i % 24) }) := rfl

/-- C10: commits and events whose timestamp string is missing or
unparseable are skipped without raising: deleting them from the input does
not change the contribution timeline or the heatmap, and both operations
still return their complete, well-formed result (`days` rows, 168 cells). -/
theorem malformed_timestamps_skipped (now : PyDateTime) (days : Nat)
    (cs : List (Option PyDateTime)) (es : List GhEvent) :
    getContributionTimeline now days cs es
        = getContributionTimeline now days (cs.filter Option.isSome)
            (es.filter (fun e => e.createdAt.isSome))
    ∧ getActivityHeatmap es = getActivityHeatmap (es.filter (fun e => e.createdAt.isSome))
    ∧ (getContributionTimeline now days cs es).length = days
    ∧ (getActivityHeatmap es).length = 168 := by
  refine ⟨?_, ?_, ?_, ?_⟩
  · simp only [getContributionTimeline]
    rw [commitFold_filter, eventFold_filter]
  · simp only [getActivityHeatmap, heatmapCounts]
    rw [heatmapFold_filter]
  · simp [getContributionTimeline]
  · rw [heatmap_eq_map_range]
    simp

lemma heatmapFold_apply (es : List GhEvent) :
    ∀ (m : Nat × Nat → Nat) (c : Nat × Nat),
      es.foldl heatmapStep m c =
        m c + (es.filterMap GhEvent.createdAt).countP
          (fun t => decide (((pyWeekday t + 1) % 7, t.hour) = c)) := by
  induction es with
  | nil => intro m c; simp
  | cons e rest ih =>
    intro m c
    rw [List.foldl_cons, ih]
    cases hct : e.createdAt with
    | none =>
      rw [show heatmapStep m e = m by simp [heatmapStep, hct]]
      rw [show (e :: rest).filterMap GhEvent.createdAt
            = rest.filterMap GhEvent.createdAt by simp [List.filterMap_cons, hct]]
    | some t =>
      rw [show heatmapStep m e = bumpCell m ((pyWeekday t + 1) % 7, t.hour) by
        simp [heatmapStep, hct]]
      rw [show (e :: rest).filterMap GhEvent.createdAt
            = t :: rest.filterMap GhEvent.createdAt by simp [List.filterMap_cons, hct]]
      rw [List.countP_cons]
      by_cases hc : c = ((pyWeekday t + 1) % 7, t.hour)
      · subst hc
        simp [bumpCell]
        omega
      · have hc2 : ¬(((pyWeekday t + 1) % 7, t.hour) = c) := fun h => hc h.symm
        simp [bumpCell, hc, hc2]

/-- C6: the heatmap always has exactly 168 entries; the entry at index
`day * 24 + hour` (day-major, hour-minor order, so each pair in
[0,6] × [0,23] occurs exactly once) is the cell for that pair, whose count
is the number of events with a parseable timestamp whose normalized day of
week — `(nativeWeekday + 1) % 7`, mapping Python's Monday-0 numbering to
0 = Sunday .. 6 = Saturday — and wall-clock hour match the pair; cells with
no matching events are present with count zero. -/
theorem heatmap_full_grid (es : List GhEvent) :
    (getActivityHeatmap es).length = 168
    ∧ ∀ day hour : Nat, day < 7 → hour < 24 →
        (getActivityHeatmap es)[day * 24 + hour]? = some
          { day := day, hour := hour,
            count := (es.filterMap GhEvent.createdAt).countP
              (fun t => decide ((pyWeekday t + 1) % 7 = day) && decide (t.hour = hour)) } := by
  constructor
  · rw [heatmap_eq_map_range]
    simp
  · intro day hour hd hh
    rw [heatmap_eq_map_range, List.getElem?_map,
      List.getElem?_range (by omega : day * 24 + hour < 168)]
    have h1 : (day * 24 + hour) / 24 = day := by omega
    have h2 : (day * 24 + hour) % 24 = hour := by omega
    rw [Option.map_some']
    rw [h1, h2]
    have h3 : heatmapCounts es (day, hour)
        = (es.filterMap GhEvent.createdAt).countP
            (fun t => decide ((pyWeekday t + 1) % 7 = day) && decide (t.hour = hour)) := by
      rw [heatmapCounts, heatmapFold_apply]
      rw [Nat.zero_add]
      apply List.countP_congr
      intro t _
      constructor
      · intro h
        have h4 : ((pyWeekday t + 1) % 7, t.hour) = (day, hour) := of_decide_eq_true h
        simp [Prod.ext_iff] at h4
        simp [h4]
      · intro h
        simp only [Bool.and_eq_true, decide_eq_true_eq] at h
        simp [Prod.ext_iff, h]
    rw [h3]

/-- C6 witness: a single event on a Thursday (native weekday 3, normalized
day 4) at hour 15 lands in cell (4, 15), found at index 4 · 24 + 15. -/
theorem heatmap_full_grid_witness :
    (getActivityHeatmap [⟨some ⟨3, 15, 0, 0⟩, "PushEvent", none⟩]).length = 168
    ∧ (getActivityHeatmap [⟨some ⟨3, 15, 0, 0⟩, "PushEvent", none⟩])[4 * 24 + 15]?
        = some ⟨4, 15, 1⟩ := by
  refine ⟨(heatmap_full_grid _).1, ?_⟩
  have h := (heatmap_full_grid [⟨some ⟨3, 15, 0, 0⟩, "PushEvent", none⟩]).2 4 15
    (by decide) (by decide)
  rw [h]
  decide

lemma timeline_daily (now : PyDateTime) (days : Nat)
    (cs : List (Option PyDateTime)) (es : List GhEvent) :
    ∀ p ∈ getContributionTimeline now days cs es,
      p.commits = commitsOn cs p.date
      ∧ p.pull_requests = prOpenedOn (utcMinutes now - (days : Int) * 1440) es p.date
      ∧ p.issues = issuesOpenedOn (utcMinutes now - (days : Int) * 1440) es p.date := by
  intro p hp
  simp only [getContributionTimeline] at hp
  rw [List.mem_mergeSort] at hp
  obtain ⟨i, hi, hpe⟩ := List.mem_map.mp hp
  subst hpe
  refine ⟨?_, ?_, ?_⟩ <;>
    simp [eventFold_apply, commitFold_apply, DayAgg.zero]

lemma mergeSort_countdown (a n : Nat) (hn : n ≤ a) :
    (List.map (fun i => a - i) (List.range n)).mergeSort (fun x y => decide (x ≤ y))
      = List.map (fun j => a + 1 - n + j) (List.range n) := by
  apply List.eq_of_perm_of_sorted (r := fun x y : Nat => x ≤ y)
  · have hrev : (List.map (fun i => a - i) (List.range n)).reverse
        = List.map (fun j => a + 1 - n + j) (List.range n) := by
      apply List.ext_getElem
      · simp
      · intro k h1 h2
        rw [List.getElem_reverse]
        simp only [List.getElem_map, List.getElem_range, List.length_map,
          List.length_range] at h1 h2 ⊢
        omega
    exact (List.mergeSort_perm _ _).trans (by rw [← hrev]; exact (List.reverse_perm _).symm)
  · have h1 := @List.sorted_mergeSort Nat (fun x y => decide (x ≤ y))
      (by intro x y z hxy hyz; simp at hxy hyz ⊢; omega)
      (by intro x y; simp; omega)
      (List.map (fun i => a - i) (List.range n))
    exact h1.imp (fun h => of_decide_eq_true h)
  · exact (List.pairwise_lt_range n).map _ (fun x y hxy => by omega)

lemma timeline_map_date (now : PyDateTime) (days : Nat)
    (cs : List (Option PyDateTime)) (es : List GhEvent) (hbig : days ≤ now.day) :
    (getContributionTimeline now days cs es).map (fun p => p.date)
      = (List.range days).map (fun j => now.day + 1 - days + j) := by
  simp only [getContributionTimeline]
  rw [List.map_mergeSort (f := fun p : ContributionPoint => p.date)
    (s := fun x y : Nat => decide (x ≤ y)) (fun a _ b _ => rfl), List.map_map]
  show (List.map (fun i => now.day - i) (List.range days)).mergeSort
      (fun x y => decide (x ≤ y)) = _
  exact mergeSort_countdown now.day days hbig

lemma timeline_pairs (now : PyDateTime) (days : Nat)
    (cs : List (Option PyDateTime)) (es : List GhEvent) (hbig : days ≤ now.day) :
    (getContributionTimeline now days cs es).map (fun p => (p.date, p.commits))
      = (List.range days).map (fun j =>
          (now.day + 1 - days + j, commitsOn cs (now.day + 1 - days + j))) := by
  have hd := timeline_map_date now days cs es hbig
  have hc := timeline_daily now days cs es
  have hlen : (getContributionTimeline now days cs es).length = days := by
    simpa using congrArg List.length hd
  apply List.ext_getElem?
  intro i
  by_cases hi : i < days
  · have hilen : i < (getContributionTimeline now days cs es).length := by omega
    rw [List.getElem?_map, List.getElem?_map, List.getElem?_eq_getElem hilen,
      List.getElem?_range hi]
    have hdate : (getContributionTimeline now days cs es)[i].date
        = now.day + 1 - days + i := by
      have h2 := congrArg (fun l => l[i]?) hd
      simp only [List.getElem?_map, List.getElem?_eq_getElem hilen,
        List.getElem?_range hi, Option.map_some'] at h2
      simpa using h2
    have hmem := List.getElem_mem hilen
    have hcom := (hc _ hmem).1
    simp [Option.map_some', hdate, hcom]
  · have h1 : (getContributionTimeline now days cs es)[i]? = none :=
      List.getElem?_eq_none (by omega)
    have h2 : (List.range days)[i]? = none :=
      List.getElem?_eq_none (by simpa using by omega)
    rw [List.getElem?_map, List.getElem?_map, h1, h2]
    rfl

/-- C1: for any valid `days` in [1, 90] (with the window inside the
calendar, `days ≤ now.day`), the contribution timeline has exactly `days`
rows whose dates are precisely the trailing window of consecutive calendar
days ending today, in ascending order with no gaps; every row carries the
bucketed commit/PR/issue counts of its date, so days with no activity
appear with zero counts. -/
theorem contribution_timeline_window (now : PyDateTime) (days : Nat)
    (cs : List (Option PyDateTime)) (es : List GhEvent)
    (h1 : 1 ≤ days) (h90 : days ≤ 90) (hbig : days ≤ now.day) :
    ((getContributionTimeline now days cs es).map (fun p => p.date)
        = (List.range days).map (fun j => now.day + 1 - days + j))
    ∧ (getContributionTimeline now days cs es).length = days
    ∧ ∀ p ∈ getContributionTimeline now days cs es,
        p.commits = commitsOn cs p.date
        ∧ p.pull_requests = prOpenedOn (utcMinutes now - (days : Int) * 1440) es p.date
        ∧ p.issues = issuesOpenedOn (utcMinutes now - (days : Int) * 1440) es p.date := by
  refine ⟨timeline_map_date now days cs es hbig, ?_, timeline_daily now days cs es⟩
  simpa using congrArg List.length (timeline_map_date now days cs es hbig)

/-- C1 witness: a three-day window ending on day 800, with one commit the
day before and one malformed commit entry. -/
theorem contribution_timeline_window_witness :
    ((getContributionTimeline ⟨800, 10, 0, 0⟩ 3 [some ⟨799, 5, 0, 0⟩, none] []).map
        (fun p => p.date) = (List.range 3).map (fun j => 800 + 1 - 3 + j))
    ∧ (getContributionTimeline ⟨800, 10, 0, 0⟩ 3 [some ⟨799, 5, 0, 0⟩, none] []).length = 3 :=
  have h := contribution_timeline_window ⟨800, 10, 0, 0⟩ 3 [some ⟨799, 5, 0, 0⟩, none] []
    (by decide) (by decide) (by decide)
  ⟨h.1, h.2.1⟩

/-- C3 counterexample: the claim says commits are bucketed by the UTC
calendar date of the committer timestamp for every carried offset.  A
commit stamped 23:30 at offset -300 minutes (UTC-5) has UTC calendar date
`day + 1`, yet the timeline buckets it on `day`: with one such commit on
day 1000 inside a 3-day window ending day 1002, the row for its UTC date
1001 shows zero commits and the row for 1000 shows one. -/
theorem commit_bucket_not_utc_counterexample :
    utcDateKey ⟨1000, 23, 30, -300⟩ = 1001
    ∧ (getContributionTimeline ⟨1002, 0, 0, 0⟩ 3 [some ⟨1000, 23, 30, -300⟩] []).map
        (fun p => (p.date, p.commits)) = [(1000, 1), (1001, 0), (1002, 0)] := by
  constructor
  · decide
  · rw [timeline_pairs _ _ _ _ (by decide)]
    decide

/-- C3 amended: every fetched commit with a parseable committer timestamp
is bucketed by the calendar date carried in the timestamp's own UTC offset
(the date `strftime` prints on the parsed datetime, with no normalisation
to UTC); this coincides with the UTC calendar date whenever the carried
offset is zero (the `Z` / `+00:00` form). -/
theorem commit_bucket_local_date (now : PyDateTime) (days : Nat)
    (cs : List (Option PyDateTime)) (es : List GhEvent) :
    (∀ p ∈ getContributionTimeline now days cs es, p.commits = commitsOn cs p.date)
    ∧ ∀ t : PyDateTime, t.offset = 0 → t.hour < 24 → t.minute < 60 →
        (localDateKey t : Int) = utcDateKey t := by
  constructor
  · intro p hp
    exact (timeline_daily now days cs es p hp).1
  · intro t h0 hh hm
    rw [localDateKey, utcDateKey, utcMinutes, h0]
    omega

/-- C3 amended witness: for an offset-zero timestamp the bucket date is
the UTC calendar date; the bucket content of a concrete timeline row. -/
theorem commit_bucket_local_date_witness :
    ((⟨10, 0, 0, 0⟩ : ContributionPoint).commits
        = commitsOn ([] : List (Option PyDateTime)) 10)
    ∧ (localDateKey ⟨5, 3, 4, 0⟩ : Int) = utcDateKey ⟨5, 3, 4, 0⟩ :=
  ⟨(commit_bucket_local_date ⟨10, 0, 0, 0⟩ 1 [] []).1 ⟨10, 0, 0, 0⟩
      (List.mem_mergeSort.mpr (by decide)),
   (commit_bucket_local_date ⟨10, 0, 0, 0⟩ 1 [] []).2 ⟨5, 3, 4, 0⟩ rfl
      (by decide) (by decide)⟩

lemma repoLe_trans : ∀ a b c : RepoItem,
    repoLe a b = true → repoLe b c = true → repoLe a c = true := by
  intro a b c hab hbc
  simp only [repoLe, decide_eq_true_eq] at hab hbc ⊢
  omega

lemma repoLe_total : ∀ a b : RepoItem, (repoLe a b || repoLe b a) = true := by
  intro a b
  simp only [repoLe, Bool.or_eq_true, decide_eq_true_eq]
  omega

/-- C7: `get_top_repositories` sorts the repositories by star count
descending with a stable sort — any two repositories appearing in upstream
order with the later one not exceeding the earlier one's stars (in
particular, ties) keep their relative order in the full ranking — and
truncates to at most `limit` entries; truncating is taking a prefix of the
ranking for any larger limit, so it never reorders the retained entries. -/
theorem top_repositories_ranking (repos : List RepoItem) (limit : Nat)
    (h1 : 1 ≤ limit) (h100 : limit ≤ 100) :
    ((getTopRepositories repos limit).map (fun r => r.stars)).Pairwise (fun a b => b ≤ a)
    ∧ (getTopRepositories repos limit).length = min limit repos.length
    ∧ (∀ a b : RepoItem, [a, b].Sublist repos →
        b.stargazers_count ≤ a.stargazers_count → [a, b].Sublist (rankedRepos repos))
    ∧ ∀ limit2 : Nat, limit ≤ limit2 →
        getTopRepositories repos limit = (getTopRepositories repos limit2).take limit := by
  refine ⟨?_, ?_, ?_, ?_⟩
  · have hs := List.sorted_mergeSort repoLe_trans repoLe_total repos
    have hs2 : (rankedRepos repos).Pairwise
        (fun a b : RepoItem => b.stargazers_count ≤ a.stargazers_count) :=
      hs.imp (fun h => by simpa [repoLe] using h)
    have hs3 := hs2.sublist (List.take_sublist limit (rankedRepos repos))
    rw [getTopRepositories, List.map_map, List.pairwise_map]
    exact hs3
  · simp [getTopRepositories, rankedRepos, List.length_take, List.length_mergeSort]
  · intro a b hsub hle
    exact List.pair_sublist_mergeSort repoLe_trans repoLe_total
      (by simpa [repoLe] using hle) hsub
  · intro limit2 hl
    rw [getTopRepositories, getTopRepositories, List.map_take, List.map_take,
      List.take_take, min_eq_left hl]

/-- C7 witness: three repositories with stars 7, 5, 5; limit 2.  The two
5-star repositories keep their upstream order in the ranking, and the
2-element output is the prefix of the 3-element output. -/
theorem top_repositories_ranking_witness :
    ((getTopRepositories
        [⟨"c", "o/c", none, "", none, 7, 0, false, false, "o", "", none⟩,
         ⟨"a", "o/a", none, "", none, 5, 0, false, false, "o", "", none⟩,
         ⟨"b", "o/b", none, "", none, 5, 0, false, false, "o", "", none⟩] 2).map
        (fun r => r.stars)).Pairwise (fun a b => b ≤ a)
    ∧ (getTopRepositories
        [⟨"c", "o/c", none, "", none, 7, 0, false, false, "o", "", none⟩,
         ⟨"a", "o/a", none, "", none, 5, 0, false, false, "o", "", none⟩,
         ⟨"b", "o/b", none, "", none, 5, 0, false, false, "o", "", none⟩] 2).length = 2
    ∧ [(⟨"a", "o/a", none, "", none, 5, 0, false, false, "o", "", none⟩ : RepoItem),
        ⟨"b", "o/b", none, "", none, 5, 0, false, false, "o", "", none⟩].Sublist
        (rankedRepos
          [⟨"c", "o/c", none, "", none, 7, 0, false, false, "o", "", none⟩,
           ⟨"a", "o/a", none, "", none, 5, 0, false, false, "o", "", none⟩,
           ⟨"b", "o/b", none, "", none, 5, 0, false, false, "o", "", none⟩])
    ∧ getTopRepositories
        [⟨"c", "o/c", none, "", none, 7, 0, false, false, "o", "", none⟩,
         ⟨"a", "o/a", none, "", none, 5, 0, false, false, "o", "", none⟩,
         ⟨"b", "o/b", none, "", none, 5, 0, false, false, "o", "", none⟩] 2
      = (getTopRepositories
          [⟨"c", "o/c", none, "", none, 7, 0, false, false, "o", "", none⟩,
           ⟨"a", "o/a", none, "", none, 5, 0, false, false, "o", "", none⟩,
           ⟨"b", "o/b", none, "", none, 5, 0, false, false, "o", "", none⟩] 3).take 2 :=
  have h := top_repositories_ranking
    [⟨"c", "o/c", none, "", none, 7, 0, false, false, "o", "", none⟩,
     ⟨"a", "o/a", none, "", none, 5, 0, false, false, "o", "", none⟩,
     ⟨"b", "o/b", none, "", none, 5, 0, false, false, "o", "", none⟩] 2
    (by decide) (by decide)
  ⟨h.1, by rw [h.2.1]; decide, h.2.2.1 _ _ (by decide) (by decide), h.2.2.2 3 (by decide)⟩

lemma floor_eq_ratFloor (y : ℚ) : y.floor = ⌊y⌋ := by
  rw [Rat.floor_def', Rat.floor_def]

lemma abs_roundHalfEven_sub (y : ℚ) : |((roundHalfEven y : ℤ) : ℚ) - y| ≤ 1 / 2 := by
  have hfl : ((⌊y⌋ : ℤ) : ℚ) ≤ y := Int.floor_le y
  have hfu : y < (⌊y⌋ : ℚ) + 1 := Int.lt_floor_add_one y
  simp only [roundHalfEven, floor_eq_ratFloor]
  split_ifs with h1 h2 h3 <;> rw [abs_le] <;> constructor <;> push_cast at * <;> linarith

lemma roundTo2_le (x : ℚ) : roundTo2 x ≤ x + 1 / 200 ∧ x - 1 / 200 ≤ roundTo2 x := by
  have h := abs_roundHalfEven_sub (x * 100)
  rw [abs_le] at h
  simp only [roundTo2]
  constructor <;> linarith [h.1, h.2]

lemma abs_roundTo2_sub (x : ℚ) : |roundTo2 x - x| ≤ 1 / 200 := by
  have h := roundTo2_le x
  rw [abs_le]
  constructor <;> linarith [h.1, h.2]

lemma roundTo2_nonneg {x : ℚ} (hx : 0 ≤ x) : 0 ≤ roundTo2 x := by
  have h0 : 0 ≤ ⌊x * 100⌋ := Int.floor_nonneg.mpr (by positivity)
  simp only [roundTo2, roundHalfEven, floor_eq_ratFloor]
  split_ifs with h1 h2 h3
  · exact div_nonneg (by exact_mod_cast h0) (by norm_num)
  · exact div_nonneg (by exact_mod_cast (by omega : (0 : ℤ) ≤ ⌊x * 100⌋ + 1)) (by norm_num)
  · exact div_nonneg (by exact_mod_cast h0) (by norm_num)
  · exact div_nonneg (by exact_mod_cast (by omega : (0 : ℤ) ≤ ⌊x * 100⌋ + 1)) (by norm_num)

lemma sum_map_add_const {α : Type} (l : List α) (f : α → ℚ) (c : ℚ) :
    (l.map (fun x => f x + c)).sum = (l.map f).sum + l.length * c := by
  induction l with
  | nil => simp
  | cons a rest ih =>
    simp only [List.map_cons, List.sum_cons, List.length_cons, ih]
    push_cast
    ring

lemma sum_map_sub {α : Type} (l : List α) (f g : α → ℚ) :
    (l.map (fun x => f x - g x)).sum = (l.map f).sum - (l.map g).sum := by
  induction l with
  | nil => simp
  | cons a rest ih =>
    simp only [List.map_cons, List.sum_cons, ih]
    ring

lemma abs_list_sum_le (l : List ℚ) : |l.sum| ≤ (l.map (fun x => |x|)).sum := by
  induction l with
  | nil => simp
  | cons a rest ih =>
    simp only [List.map_cons, List.sum_cons]
    calc |a + rest.sum| ≤ |a| + |rest.sum| := abs_add _ _
      _ ≤ |a| + (rest.map (fun x => |x|)).sum := by linarith

lemma sum_map_pct (m : List (String × Nat)) (total : Nat) (h : total ≠ 0)
    (hsum : (m.map (fun p => p.2)).sum = total) :
    (m.map (fun p => (p.2 : ℚ) / (total : ℚ) * 100)).sum = 100 := by
  have ht : (total : ℚ) ≠ 0 := Nat.cast_ne_zero.mpr h
  have h1 : (m.map (fun p => (p.2 : ℚ) / (total : ℚ) * 100))
      = m.map (fun p => (p.2 : ℚ) * (100 / (total : ℚ))) := by
    apply List.map_congr_left
    intro p _
    ring
  have h2 : (m.map (fun p => ((p.2 : ℕ) : ℚ))).sum = ((total : ℕ) : ℚ) := by
    rw [← hsum, Nat.cast_list_sum, List.map_map]
    rfl
  rw [h1, List.sum_map_mul_right, h2]
  field_simp

lemma sum_map_const {α : Type} (l : List α) (c : ℚ) :
    (l.map (fun _ => c)).sum = l.length * c := by
  induction l with
  | nil => simp
  | cons a rest ih =>
    simp only [List.map_cons, List.sum_cons, List.length_cons, ih]
    push_cast
    ring

lemma mem_breakdown_sorted {m : List (String × Nat)} {total : Nat} {q : LanguageBreakdown}
    (hq : q ∈ (m.map (breakdownRow total)).mergeSort
      (fun a b => decide (b.percentage ≤ a.percentage))) :
    q.percentage = roundTo2 ((q.bytes : ℚ) / (total : ℚ) * 100) := by
  rw [List.mem_mergeSort] at hq
  obtain ⟨p, hp, hpe⟩ := List.mem_map.mp hq
  subst hpe
  rfl

lemma breakdownRows_sum_le (m : List (String × Nat)) (total : Nat) (h : total ≠ 0)
    (hsum : (m.map (fun p => p.2)).sum = total) :
    ((breakdownRows m total).map (fun q => q.percentage)).sum
      ≤ 100 + ((breakdownRows m total).length : ℚ) * (1 / 200) := by
  simp only [breakdownRows]
  set sorted := (m.map (breakdownRow total)).mergeSort
    (fun a b => decide (b.percentage ≤ a.percentage)) with hs
  have hstep1 : ((sorted.take 10).map (fun q => q.percentage)).sum
      ≤ ((sorted.take 10).map
          (fun q => (q.bytes : ℚ) / (total : ℚ) * 100 + 1 / 200)).sum := by
    apply List.sum_le_sum
    intro q hq
    have hq2 : q ∈ sorted := (List.take_sublist 10 sorted).subset hq
    rw [mem_breakdown_sorted hq2]
    exact (roundTo2_le _).1
  have hstep2 := sum_map_add_const (sorted.take 10)
    (fun q => (q.bytes : ℚ) / (total : ℚ) * 100) (1 / 200)
  have hnn : ∀ a ∈ sorted.map (fun q => (q.bytes : ℚ) / (total : ℚ) * 100), 0 ≤ a := by
    intro a ha
    obtain ⟨q, _, hqe⟩ := List.mem_map.mp ha
    subst hqe
    positivity
  have hstep3 : ((sorted.take 10).map (fun q => (q.bytes : ℚ) / (total : ℚ) * 100)).sum
      ≤ (sorted.map (fun q => (q.bytes : ℚ) / (total : ℚ) * 100)).sum :=
    List.Sublist.sum_le_sum ((List.take_sublist 10 sorted).map _) hnn
  have hperm : List.Perm (sorted.map (fun q => (q.bytes : ℚ) / (total : ℚ) * 100))
      ((m.map (breakdownRow total)).map (fun q => (q.bytes : ℚ) / (total : ℚ) * 100)) :=
    (List.mergeSort_perm _ _).map _
  have hstep4 : (sorted.map (fun q => (q.bytes : ℚ) / (total : ℚ) * 100)).sum
      = (m.map (fun p => (p.2 : ℚ) / (total : ℚ) * 100)).sum := by
    rw [hperm.sum_eq, List.map_map]
    rfl
  have hstep5 := sum_map_pct m total h hsum
  linarith [hstep1, hstep2, hstep3, hstep4, hstep5]

lemma breakdownRows_sum_close (m : List (String × Nat)) (total : Nat) (h : total ≠ 0)
    (hsum : (m.map (fun p => p.2)).sum = total) (hlen : m.length < 10) :
    |((breakdownRows m total).map (fun q => q.percentage)).sum - 100|
      ≤ ((breakdownRows m total).length : ℚ) * (1 / 200) := by
  simp only [breakdownRows]
  set sorted := (m.map (breakdownRow total)).mergeSort
    (fun a b => decide (b.percentage ≤ a.percentage)) with hs
  have hslen : sorted.length = m.length := by
    rw [hs, List.length_mergeSort, List.length_map]
  have htake : sorted.take 10 = sorted := List.take_of_length_le (by omega)
  rw [htake]
  have hperm : List.Perm (sorted.map (fun q => q.percentage))
      ((m.map (breakdownRow total)).map (fun q => q.percentage)) :=
    (List.mergeSort_perm _ _).map _
  have hsum1 : (sorted.map (fun q => q.percentage)).sum
      = (m.map (fun p => roundTo2 ((p.2 : ℚ) / (total : ℚ) * 100))).sum := by
    rw [hperm.sum_eq, List.map_map]
    rfl
  have hraw := sum_map_pct m total h hsum
  have h2 : (m.map (fun p => roundTo2 ((p.2 : ℚ) / (total : ℚ) * 100))).sum - 100
      = (m.map (fun p => roundTo2 ((p.2 : ℚ) / (total : ℚ) * 100)
          - (p.2 : ℚ) / (total : ℚ) * 100)).sum := by
    rw [sum_map_sub, hraw]
  have habs : |(m.map (fun p => roundTo2 ((p.2 : ℚ) / (total : ℚ) * 100)
      - (p.2 : ℚ) / (total : ℚ) * 100)).sum| ≤ (m.length : ℚ) * (1 / 200) := by
    have ht := abs_list_sum_le (m.map (fun p => roundTo2 ((p.2 : ℚ) / (total : ℚ) * 100)
      - (p.2 : ℚ) / (total : ℚ) * 100))
    rw [List.map_map] at ht
    have hb : ((m.map (fun p => |roundTo2 ((p.2 : ℚ) / (total : ℚ) * 100)
        - (p.2 : ℚ) / (total : ℚ) * 100|)).sum : ℚ)
        ≤ (m.map (fun _ => (1 / 200 : ℚ))).sum := by
      apply List.sum_le_sum
      intro p _
      exact abs_roundTo2_sub _
    rw [sum_map_const] at hb
    calc |(m.map (fun p => roundTo2 ((p.2 : ℚ) / (total : ℚ) * 100)
          - (p.2 : ℚ) / (total : ℚ) * 100)).sum|
        ≤ (m.map ((fun x => |x|) ∘ fun p => roundTo2 ((p.2 : ℚ) / (total : ℚ) * 100)
            - (p.2 : ℚ) / (total : ℚ) * 100)).sum := ht
      _ ≤ (m.length : ℚ) * (1 / 200) := hb
  rw [hsum1, hslen, h2]
  exact habs

lemma languageBytesOf_filter (repos : List RepoItem) :
    languageBytesOf (repos.filter (fun r => !r.fork)) = languageBytesOf repos := by
  rw [languageBytesOf, languageBytesOf]
  suffices h : ∀ init, (repos.filter (fun r => !r.fork)).foldl accumulateRepo init
      = repos.foldl accumulateRepo init from h []
  induction repos with
  | nil => intro init; rfl
  | cons r rest ih =>
    intro init
    by_cases hf : r.fork
    · rw [show (r :: rest).filter (fun r => !r.fork) = rest.filter (fun r => !r.fork) by
        simp [List.filter, hf]]
      rw [ih init, List.foldl_cons,
        show accumulateRepo init r = init by simp [accumulateRepo, hf]]
    · rw [show (r :: rest).filter (fun r => !r.fork) = r :: rest.filter (fun r => !r.fork) by
        simp [List.filter, hf]]
      rw [List.foldl_cons, List.foldl_cons]
      exact ih (accumulateRepo init r)

lemma computeLanguageBreakdown_filter (repos : List RepoItem) :
    computeLanguageBreakdown repos
      = computeLanguageBreakdown (repos.filter (fun r => !r.fork)) := by
  simp only [computeLanguageBreakdown, languageBytesOf_filter]

/-- C4 amended: the breakdown has at most 10 entries; its rounded
percentages sum to at most 100 plus the two-decimal rounding slack of
1/200 per entry (hence at most 100.05); repositories flagged as forks
never contribute bytes; and when at least one and fewer than 10 languages
exist, the sum is within the rounding slack of exactly 100. -/
theorem language_breakdown_bounds (repos : List RepoItem) :
    (computeLanguageBreakdown repos).length ≤ 10
    ∧ ((computeLanguageBreakdown repos).map (fun q => q.percentage)).sum
        ≤ 100 + ((computeLanguageBreakdown repos).length : ℚ) * (1 / 200)
    ∧ computeLanguageBreakdown repos
        = computeLanguageBreakdown (repos.filter (fun r => !r.fork))
    ∧ ((languageBytesOf repos).length < 10 →
        ((languageBytesOf repos).map (fun p => p.2)).sum ≠ 0 →
        |((computeLanguageBreakdown repos).map (fun q => q.percentage)).sum - 100|
          ≤ ((computeLanguageBreakdown repos).length : ℚ) * (1 / 200)) := by
  refine ⟨?_, ?_, computeLanguageBreakdown_filter repos, ?_⟩
  · simp only [computeLanguageBreakdown]
    split
    · simp
    · simp only [breakdownRows]
      exact List.length_take_le _ _
  · simp only [computeLanguageBreakdown]
    split
    · simp
    · next htot => exact breakdownRows_sum_le _ _ htot rfl
  · intro hlen htot
    simp only [computeLanguageBreakdown]
    rw [if_neg htot]
    exact breakdownRows_sum_close _ _ htot rfl hlen

lemma breakdownRow_pct_sixth (s : String) :
    (breakdownRow 6 (s, 1)).percentage = 1667 / 100 := by
  simp only [breakdownRow, roundTo2, roundHalfEven, floor_eq_ratFloor]
  norm_num

/-- C4 counterexample: the claim says the rounded percentages sum to at
most 100.  With six languages of equal byte counts each percentage is
100/6 = 16.666…, rounded to 16.67, and the sum is 100.02 > 100. -/
theorem language_percentages_sum_counterexample :
    ((computeLanguageBreakdown
        [⟨"r", "o/r", none, "", none, 0, 0, false, false, "o", "",
          some [("A", 1), ("B", 1), ("C", 1), ("D", 1), ("E", 1), ("F", 1)]⟩]).map
        (fun q => q.percentage)).sum = 5001 / 50
    ∧ ¬(((computeLanguageBreakdown
        [⟨"r", "o/r", none, "", none, 0, 0, false, false, "o", "",
          some [("A", 1), ("B", 1), ("C", 1), ("D", 1), ("E", 1), ("F", 1)]⟩]).map
        (fun q => q.percentage)).sum ≤ 100) := by
  have hpair : ([("A", 1), ("B", 1), ("C", 1), ("D", 1), ("E", 1), ("F", 1)].map
      (breakdownRow 6)).Pairwise
        (fun a b => (decide (b.percentage ≤ a.percentage)) = true) := by
    apply List.pairwise_of_forall_mem_list
    intro a ha b hb
    obtain ⟨p, hp, hpe⟩ := List.mem_map.mp ha
    obtain ⟨q, hq, hqe⟩ := List.mem_map.mp hb
    subst hpe
    subst hqe
    fin_cases hp <;> fin_cases hq <;> simp [breakdownRow_pct_sixth]
  have h2 : computeLanguageBreakdown
      [⟨"r", "o/r", none, "", none, 0, 0, false, false, "o", "",
        some [("A", 1), ("B", 1), ("C", 1), ("D", 1), ("E", 1), ("F", 1)]⟩]
      = ([("A", 1), ("B", 1), ("C", 1), ("D", 1), ("E", 1), ("F", 1)].map
          (breakdownRow 6)).take 10 := by
    rw [show computeLanguageBreakdown
        [⟨"r", "o/r", none, "", none, 0, 0, false, false, "o", "",
          some [("A", 1), ("B", 1), ("C", 1), ("D", 1), ("E", 1), ("F", 1)]⟩]
        = breakdownRows [("A", 1), ("B", 1), ("C", 1), ("D", 1), ("E", 1), ("F", 1)] 6
        from rfl]
    simp only [breakdownRows]
    rw [List.mergeSort_of_sorted hpair]
  rw [h2]
  have h3 : ((([("A", 1), ("B", 1), ("C", 1), ("D", 1), ("E", 1), ("F", 1)].map
      (breakdownRow 6)).take 10).map (fun q => q.percentage))
      = [1667 / 100, 1667 / 100, 1667 / 100, 1667 / 100, 1667 / 100, (1667 / 100 : ℚ)] := by
    simp [breakdownRow_pct_sixth]
  rw [h3]
  constructor
  · norm_num
  · norm_num

/-- C4 amended witness: two equal languages — percentages 50.0 each, sum
exactly 100, length 2 ≤ 10. -/
theorem language_breakdown_bounds_witness :
    (computeLanguageBreakdown
        [⟨"r", "o/r", none, "", none, 0, 0, false, false, "o", "",
          some [("A", 1), ("B", 1)]⟩]).length ≤ 10
    ∧ |((computeLanguageBreakdown
        [⟨"r", "o/r", none, "", none, 0, 0, false, false, "o", "",
          some [("A", 1), ("B", 1)]⟩]).map (fun q => q.percentage)).sum - 100|
        ≤ ((computeLanguageBreakdown
        [⟨"r", "o/r", none, "", none, 0, 0, false, false, "o", "",
          some [("A", 1), ("B", 1)]⟩]).length : ℚ) * (1 / 200) :=
  have h := language_breakdown_bounds
    [⟨"r", "o/r", none, "", none, 0, 0, false, false, "o", "",
      some [("A", 1), ("B", 1)]⟩]
  ⟨h.1, h.2.2.2 (by decide) (by decide)⟩

lemma getCached_hit {α : Type} {now : Int} {u : Nat} {k : String} {s : CacheStore α}
    {v : α} (h : (getCached now u k s).1 = some v) : getCached now u k s = (some v, s) := by
  unfold getCached at h ⊢
  cases hf : findRecord u k s with
  | none =>
    rw [hf] at h
    simp at h
  | some r =>
    rw [hf] at h
    dsimp only at h ⊢
    by_cases hx : isExpired now r
    · rw [if_pos hx] at h
      simp at h
    · rw [if_neg hx] at h ⊢
      simp only [Option.some.injEq] at h
      rw [h]

lemma setCached_lookup {α : Type} (t : Int) (u : Nat) (k : String) (d : α) (ttl : Nat)
    (s : CacheStore α) :
    (findRecord u k (setCached t u k d ttl s)).map (fun r => r.data) = some d := by
  obtain ⟨r, hr, hd, _⟩ := findRecord_setCached t u k d ttl s
  rw [hr, Option.map_some', hd]

/-- C5 amended: every view operation follows the uniform cache-or-fetch
pattern — on a hit it returns the cached value with the store untouched; on
a miss it computes the view, writes it through under its cache key (which
embeds the `days` / `limit` parameter) with the default TTL, and returns
exactly the written value — with one exception: `get_language_breakdown`
on the zero-byte-total path returns the empty list without writing to the
cache, because its early return precedes the cache write. -/
theorem view_cache_write_through (now : Int) (u : Nat)
    (s1 : CacheStore UserStats) (s2 : CacheStore (List ContributionPoint))
    (s3 : CacheStore (List LanguageBreakdown)) (s4 : CacheStore (List RepositoryView))
    (s5 : CacheStore (List HeatmapPoint))
    (repos : List RepoItem) (totalCommits : Nat) (nowTs : PyDateTime) (days : Nat)
    (cs : List (Option PyDateTime)) (es : List GhEvent) (limit : Nat) :
    (∀ v, (getCached now u "user_stats" s1).1 = some v →
        userStatsView now u s1 repos totalCommits = (v, s1))
    ∧ (∀ v, (getCached now u ("contributions_" ++ toString days) s2).1 = some v →
        contributionTimelineView now u s2 nowTs days cs es = (v, s2))
    ∧ (∀ v, (getCached now u "languages" s3).1 = some v →
        languageBreakdownView now u s3 repos = (v, s3))
    ∧ (∀ v, (getCached now u ("repositories_" ++ toString limit) s4).1 = some v →
        topRepositoriesView now u s4 repos limit = (v, s4))
    ∧ (∀ v, (getCached now u "heatmap" s5).1 = some v →
        activityHeatmapView now u s5 es = (v, s5))
    ∧ ((getCached now u "user_stats" s1).1 = none →
        (findRecord u "user_stats" (userStatsView now u s1 repos totalCommits).2).map
          (fun r => r.data) = some (userStatsView now u s1 repos totalCommits).1)
    ∧ ((getCached now u ("contributions_" ++ toString days) s2).1 = none →
        (findRecord u ("contributions_" ++ toString days)
            (contributionTimelineView now u s2 nowTs days cs es).2).map (fun r => r.data)
          = some (contributionTimelineView now u s2 nowTs days cs es).1)
    ∧ ((getCached now u ("repositories_" ++ toString limit) s4).1 = none →
        (findRecord u ("repositories_" ++ toString limit)
            (topRepositoriesView now u s4 repos limit).2).map (fun r => r.data)
          = some (topRepositoriesView now u s4 repos limit).1)
    ∧ ((getCached now u "heatmap" s5).1 = none →
        (findRecord u "heatmap" (activityHeatmapView now u s5 es).2).map (fun r => r.data)
          = some (activityHeatmapView now u s5 es).1)
    ∧ ((getCached now u "languages" s3).1 = none →
        ((languageBytesOf repos).map (fun p => p.2)).sum ≠ 0 →
        (findRecord u "languages" (languageBreakdownView now u s3 repos).2).map
          (fun r => r.data) = some (languageBreakdownView now u s3 repos).1)
    ∧ ((getCached now u "languages" s3).1 = none →
        ((languageBytesOf repos).map (fun p => p.2)).sum = 0 →
        languageBreakdownView now u s3 repos
          = ([], (getCached now u "languages" s3).2)) := by
  refine ⟨?_, ?_, ?_, ?_, ?_, ?_, ?_, ?_, ?_, ?_, ?_⟩
  · intro v hv
    unfold userStatsView
    rw [getCached_hit hv]
  · intro v hv
    unfold contributionTimelineView
    rw [getCached_hit hv]
  · intro v hv
    unfold languageBreakdownView
    rw [getCached_hit hv]
  · intro v hv
    unfold topRepositoriesView
    rw [getCached_hit hv]
  · intro v hv
    unfold activityHeatmapView
    rw [getCached_hit hv]
  · intro hm
    have h : getCached now u "user_stats" s1
        = (none, (getCached now u "user_stats" s1).2) := Prod.ext_iff.mpr ⟨hm, rfl⟩
    unfold userStatsView
    rw [h]
    exact setCached_lookup _ _ _ _ _ _
  · intro hm
    have h : getCached now u ("contributions_" ++ toString days) s2
        = (none, (getCached now u ("contributions_" ++ toString days) s2).2) :=
      Prod.ext_iff.mpr ⟨hm, rfl⟩
    unfold contributionTimelineView
    rw [h]
    exact setCached_lookup _ _ _ _ _ _
  · intro hm
    have h : getCached now u ("repositories_" ++ toString limit) s4
        = (none, (getCached now u ("repositories_" ++ toString limit) s4).2) :=
      Prod.ext_iff.mpr ⟨hm, rfl⟩
    unfold topRepositoriesView
    rw [h]
    exact setCached_lookup _ _ _ _ _ _
  · intro hm
    have h : getCached now u "heatmap" s5
        = (none, (getCached now u "heatmap" s5).2) := Prod.ext_iff.mpr ⟨hm, rfl⟩
    unfold activityHeatmapView
    rw [h]
    exact setCached_lookup _ _ _ _ _ _
  · intro hm h0
    have h : getCached now u "languages" s3
        = (none, (getCached now u "languages" s3).2) := Prod.ext_iff.mpr ⟨hm, rfl⟩
    unfold languageBreakdownView
    rw [h]
    dsimp only
    rw [if_neg h0]
    exact setCached_lookup _ _ _ _ _ _
  · intro hm h0
    have h : getCached now u "languages" s3
        = (none, (getCached now u "languages" s3).2) := Prod.ext_iff.mpr ⟨hm, rfl⟩
    unfold languageBreakdownView
    rw [h]
    dsimp only
    rw [if_pos h0]

/-- C5 counterexample: on a cache miss with an empty repository list, the
languages view returns the empty list but writes nothing to the cache — the
returned value is not cached before returning, contradicting the uniform
write-through claim. -/
theorem language_empty_not_cached_counterexample :
    (languageBreakdownView 0 1 [] []).1 = []
    ∧ (getCached 0 1 "languages" ([] : CacheStore (List LanguageBreakdown))).1 = none
    ∧ findRecord 1 "languages" (languageBreakdownView 0 1 [] []).2 = none := by
  refine ⟨rfl, rfl, rfl⟩

/-- C5 amended witness: concrete misses on empty stores — user stats and
heatmap are written through and returned; the empty-total languages view
returns the empty list with the store untouched. -/
theorem view_cache_write_through_witness :
    ((findRecord 1 "user_stats" (userStatsView 0 1 [] [] 5).2).map (fun r => r.data)
        = some (userStatsView 0 1 [] [] 5).1)
    ∧ ((findRecord 1 "heatmap" (activityHeatmapView 0 1 [] []).2).map (fun r => r.data)
        = some (activityHeatmapView 0 1 [] []).1)
    ∧ languageBreakdownView 0 1 [] [] = ([], []) :=
  have h := view_cache_write_through 0 1 [] [] [] [] [] [] 5 ⟨10, 0, 0, 0⟩ 1 [] [] 2
  ⟨h.2.2.2.2.2.1 (by decide),
   h.2.2.2.2.2.2.2.2.1 (by decide),
   (h.2.2.2.2.2.2.2.2.2.2 (by decide) (by decide)).trans rfl⟩

end DevDash
